import Mathlib

/-
Verification of the MedMined reminder core (dose-due computation and
reminder-dedup engine).

The definitions below are a shallow embedding of the authoritative source
files:
  * `src/src/cron/cron.controller.ts` (final version): the tick lease,
    `processTick`, `computeWindowForSlot`, `nowInTz` and the time helpers;
  * `src/unnamed/part_005` (final version of the LINE webhook controller):
    the intake recorder `onText` and its own `computeWindowForSlot`.

Modelling conventions:
  * JS `Date` instants are `Int` epoch milliseconds; minutes-of-day are `Nat`.
  * `Intl.DateTimeFormat` is modelled by a `TzDb` parameter (a timezone
    database view): formatting with an unrecognized zone throws a RangeError,
    modelled as `Except.error`.  Where the code has already resolved the
    current instant in a valid zone, functions take a
    `view : String → String × Nat` parameter mapping a zone name to the
    local `(ymd, minute-of-day)` pair, i.e. the pure content of `nowInTz`.
  * Prisma rows are Lean structures; `slotDate` (a UTC-midnight `Date`
    built injectively from the local "YYYY-MM-DD" string by
    `ymdToMidnightUTC`) is modelled by the ymd string itself.
  * `schedules` on a prescription models the rows returned by the query
    (`where: { isActive: true }, orderBy: { hhmm: 'asc' }` — the code
    re-filters and re-sorts them, which is kept in the embedding).
-/

/-- Models JS `String.prototype.split` with a one-character separator, on
the character list of the string. -/
def splitOnChar (c : Char) : List Char → List (List Char)
  | [] => [[]]
  | a :: as =>
    let r := splitOnChar c as
    if a = c then [] :: r
    else
      match r with
      | [] => [[a]]
      | g :: gs => (a :: g) :: gs

/-- Value of a decimal digit character. -/
def digitVal? (ch : Char) : Option Nat :=
  if '0' ≤ ch ∧ ch ≤ '9' then some (ch.toNat - '0'.toNat) else none

/-- Decimal parse of a nonempty all-digit character list. -/
def digitsToNat? : List Char → Option Nat
  | [] => none
  | l => go l 0
where
  go : List Char → Nat → Option Nat
    | [], acc => some acc
    | ch :: rest, acc =>
      match digitVal? ch with
      | none => none
      | some d => go rest (acc * 10 + d)

/-- Models JS `Number(x) || 0` on a split component of an "HH:MM" string:
a decimal-digit string parses to its value, anything else (including the
empty string, for which JS `Number` gives 0) contributes 0. -/
def numOr0 (l : List Char) : Nat :=
  (digitsToNat? l).getD 0

/-- Port of `hhmmToMinutes` (cron.controller.ts and part_005):
`const [h, m] = hhmm.split(':').map(Number); return (h || 0) * 60 + (m || 0);` -/
def hhmmToMinutes (hhmm : String) : Nat :=
  let parts := splitOnChar ':' hhmm.data
  numOr0 (parts.getD 0 []) * 60 + numOr0 (parts.getD 1 [])

/-- Lexicographic order on character lists. -/
def charListLe : List Char → List Char → Bool
  | [], _ => true
  | _ :: _, [] => false
  | a :: as, b :: bs =>
    if a < b then true
    else if b < a then false
    else charListLe as bs

/-- Models JS string comparison `a <= b` (lexicographic by code unit, which
coincides with code-point order on the "HH:MM" / "YYYY-MM-DD" data here). -/
def strLe (a b : String) : Bool :=
  charListLe a.data b.data

/-- A `DoseSchedule` row as selected by the cron/webhook queries:
period tag, time-of-day string, pill count, active flag. -/
structure Slot where
  period : String
  hhmm : String
  pills : Nat
  isActive : Bool
deriving DecidableEq, Repr

/-- Insert one slot into a list sorted ascending by the `hhmm` string. -/
def insertSlot (s : Slot) : List Slot → List Slot
  | [] => [s]
  | t :: ts => if strLe s.hhmm t.hhmm then s :: t :: ts else t :: insertSlot s ts

/-- Models `.sort((a, b) => a.hhmm.localeCompare(b.hhmm))`: ascending sort by
the `hhmm` string (lexicographic, which `localeCompare` coincides with on
zero-padded "HH:MM" strings). -/
def sortSlots : List Slot → List Slot
  | [] => []
  | s :: ss => insertSlot s (sortSlots ss)

/-- Port of `periodToThai` (final cron/webhook versions). -/
def periodToThai (p : String) : String :=
  if p = "BEFORE_BREAKFAST" then "ก่อนอาหารเช้า"
  else if p = "AFTER_BREAKFAST" then "หลังอาหารเช้า"
  else if p = "BEFORE_LUNCH" then "ก่อนอาหารเที่ยง"
  else if p = "AFTER_LUNCH" then "หลังอาหารเที่ยง"
  else if p = "BEFORE_DINNER" then "ก่อนอาหารเย็น"
  else if p = "AFTER_DINNER" then "หลังอาหารเย็น"
  else if p = "BEFORE_BED" then "ก่อนนอน"
  else "อื่นๆ"

/-- Result record of `computeWindowForSlot` in cron.controller.ts. -/
structure Window where
  winStart : Nat
  winEnd : Nat
  remindEveryMin : Option Nat
deriving DecidableEq, Repr

/-- Models `const REMIND_DEFAULT_MIN = Number(process.env.CRON_REMIND_MIN ?? 30)`
under the default environment. -/
def REMIND_DEFAULT_MIN : Nat := 30

/-- Port of `computeWindowForSlot` (cron.controller.ts, final version).
`nextStartHHMM` is the `hhmm` of the next slot in the ascending active-slot
order, or `none` when the slot is last; `hardStop` is its minutes or 1440. -/
def computeWindowForSlot (currentHHMM : String) (currentPeriod : String)
    (nextStartHHMM : Option String) : Window :=
  let start := hhmmToMinutes currentHHMM
  let hardStop := match nextStartHHMM with
    | some n => hhmmToMinutes n
    | none => 24 * 60
  if currentPeriod = "BEFORE_BREAKFAST" ∨ currentPeriod = "BEFORE_LUNCH" ∨
      currentPeriod = "BEFORE_DINNER" then
    { winStart := start, winEnd := min (start + 60) hardStop, remindEveryMin := some 30 }
  else if currentPeriod = "BEFORE_BED" then
    { winStart := start, winEnd := 24 * 60, remindEveryMin := some 30 }
  else
    { winStart := start, winEnd := hardStop, remindEveryMin := some 30 }

/-- The membership test `nowMin >= winStart && nowMin < winEnd` of the
half-open reminder window. -/
def inWinB (w : Window) (m : Nat) : Bool :=
  decide (w.winStart ≤ m) && decide (m < w.winEnd)

/-- The slot-selection loop of `processTick` (final cron version, the part
`for (let i = 0; ...) { ... if (!(nowMin >= winStart && nowMin < winEnd))
continue; ... break; }`): returns the first slot of the list whose window
contains `nowMin`, paired with that window; every later break of the loop
body concerns only the selected slot. -/
def findCurrentSlot : List Slot → Nat → Option (Slot × Window)
  | [], _ => none
  | s :: rest, nowMin =>
    let w := computeWindowForSlot s.hhmm s.period (rest.head?.map Slot.hhmm)
    if inWinB w nowMin then some (s, w) else findCurrentSlot rest nowMin

/-- The window the cron loop computes for index `i` of the slot list:
`computeWindowForSlot(sorted[i].hhmm, sorted[i].period, sorted[i+1]?.hhmm)`. -/
def winAt (l : List Slot) (i : Nat) : Option Window :=
  (l.get? i).map fun t =>
    computeWindowForSlot t.hhmm t.period ((l.get? (i + 1)).map Slot.hhmm)

/-- The unique key of a `DoseIntake` row (and the lookup key of the
notification-log recency query): (patient, prescription, local calendar
date, slot time-of-day). -/
structure IntakeKey where
  patientId : String
  prescriptionId : String
  slotDateYmd : String
  hhmm : String
deriving DecidableEq, Repr

/-- A `DoseIntake` row. -/
structure Intake where
  key : IntakeKey
  pills : Nat
deriving DecidableEq, Repr

/-- A `NotificationLog` row. -/
structure NotifRow where
  patientId : String
  prescriptionId : String
  slotDateYmd : String
  hhmm : String
  sentAt : Int
deriving DecidableEq, Repr

/-- The persisted tables the reminder core reads. -/
structure Db where
  intakes : List Intake
  notifs : List NotifRow
deriving Repr

/-- Models `prisma.doseIntake.findUnique` on the compound key: does a row
with exactly this key exist. -/
def intakeExistsL (l : List Intake) (k : IntakeKey) : Bool :=
  l.any fun r => r.key = k

/-- Models `prisma.doseIntake.aggregate({ where: { prescriptionId }, _sum:
{ pills } })._sum.pills || 0`. -/
def sumPillsL (l : List Intake) (rxId : String) : Nat :=
  ((l.filter fun r => r.key.prescriptionId = rxId).map Intake.pills).sum

/-- Maximum of a list of timestamps, `none` on the empty list. -/
def maxSentAt : List Int → Option Int
  | [] => none
  | t :: ts =>
    match maxSentAt ts with
    | none => some t
    | some m => some (max t m)

/-- Models `prisma.notificationLog.findFirst({ where: key, orderBy:
{ sentAt: 'desc' } })?.sentAt`: the most recent `sentAt` among the rows
matching the (patient, prescription, slotDate, hhmm) key. -/
def lastNotifSentAt (db : Db) (k : IntakeKey) : Option Int :=
  maxSentAt ((db.notifs.filter fun r =>
    r.patientId = k.patientId ∧ r.prescriptionId = k.prescriptionId ∧
      r.slotDateYmd = k.slotDateYmd ∧ r.hhmm = k.hhmm).map NotifRow.sentAt)

/-- A `Prescription` as selected by the cron query.  `effStartYmd` models
`formatYMDInTz(rx.startDate ?? rx.issueDate ?? rx.createdAt, tz)` and
`endYmd` models `rx.endDate` mapped through `formatYMDInTz` (both are pure
functions of the stored dates and the zone, independent of the tick
instant). -/
structure Rx where
  id : String
  drugName : String
  timezone : Option String
  effStartYmd : String
  endYmd : Option String
  quantityTotal : Option Nat
  schedules : List Slot
deriving DecidableEq, Repr

/-- Models `const tz = rx.timezone || 'Asia/Bangkok'`: only a missing
(null) or empty timezone string falls back to the default zone. -/
def resolveTz (t : Option String) : String :=
  match t with
  | none => "Asia/Bangkok"
  | some s => if s = "" then "Asia/Bangkok" else s

/-- The course date-range guard of `processTick`:
`startOk = formatYMDInTz(effStart, tz) <= ymd` and
`endOk = !rx.endDate || ymd <= formatYMDInTz(rx.endDate, tz)`. -/
def dateOk (rx : Rx) (ymd : String) : Bool :=
  strLe rx.effStartYmd ymd &&
    (match rx.endYmd with
     | none => true
     | some e => strLe ymd e)

/-- One entry of the `dueSlots` accumulator of `processTick`. -/
structure DueSlot where
  rxId : String
  rxName : String
  tz : String
  label : String
  slotHhmm : String
  pills : Nat
  slotDateYmd : String
  period : String
deriving DecidableEq, Repr

/-- The reminder line pushed for a due slot. -/
def mkLabel (rx : Rx) (s : Slot) : String :=
  periodToThai s.period ++ " " ++ s.hhmm ++ " — " ++ rx.drugName ++ " " ++
    toString s.pills ++ " เม็ด"

/-- The per-slot phase of `processTick` for one prescription, after the
date and course-completion guards: select the current slot, apply the
already-taken check, then the cadence check, and emit at most one due
slot. -/
def evalRxSlots (patientId : String) (rx : Rx) (db : Db) (ymd : String)
    (nowMin : Nat) (nowMs : Int) : Option DueSlot :=
  let sorted := sortSlots (rx.schedules.filter Slot.isActive)
  match findCurrentSlot sorted nowMin with
  | none => none
  | some (s, w) =>
    let key : IntakeKey := ⟨patientId, rx.id, ymd, s.hhmm⟩
    if intakeExistsL db.intakes key then none
    else
      let cadence := w.remindEveryMin.getD REMIND_DEFAULT_MIN
      let shouldRemind : Bool :=
        match lastNotifSentAt db key with
        | none => true
        | some t => decide (nowMs - t ≥ (cadence : Int) * 60000)
      if shouldRemind then
        some { rxId := rx.id, rxName := rx.drugName, tz := resolveTz rx.timezone,
               label := mkLabel rx s, slotHhmm := s.hhmm, pills := s.pills,
               slotDateYmd := ymd, period := s.period }
      else none

/-- Outcome of evaluating one prescription inside one tick: the due slot
pushed into `dueSlots` (if any), whether the one-time course-complete
message was pushed this tick, and the inventory's active flag afterwards. -/
structure RxTickResult where
  due : Option DueSlot
  completionSent : Bool
  invActiveAfter : Bool
deriving DecidableEq, Repr

/-- One prescription's evaluation in one tick of `processTick` (final cron
version).  `invActive = false` models the prescription not being returned
by the `medicationInventory.findMany({ where: { isActive: true } })` query
at all; `view` maps a zone name to the local `(ymd, minute-of-day)` of the
tick instant (the pure content of `nowInTz` on valid zones). -/
def evalRxTick (invActive : Bool) (patientId : String) (rx : Rx) (db : Db)
    (view : String → String × Nat) (nowMs : Int) : RxTickResult :=
  if invActive = false then ⟨none, false, false⟩
  else if rx.schedules.isEmpty then ⟨none, false, true⟩
  else
    let tz := resolveTz rx.timezone
    let ymd := (view tz).1
    let nowMin := (view tz).2
    if dateOk rx ymd = false then ⟨none, false, true⟩
    else
      match rx.quantityTotal with
      | some total =>
        if sumPillsL db.intakes rx.id ≥ total then ⟨none, true, false⟩
        else ⟨evalRxSlots patientId rx db ymd nowMin nowMs, false, true⟩
      | none => ⟨evalRxSlots patientId rx db ymd nowMin nowMs, false, true⟩

/-- A sequence of ticks for one (patient, prescription) pair, threading the
inventory's active flag: each tick sees its own database contents, time
view and instant (later rows may be inserted freely between ticks). -/
def runRxTicks (patientId : String) (rx : Rx) :
    Bool → List (Db × (String → String × Nat) × Int) → List RxTickResult
  | _, [] => []
  | act, (db, view, nowMs) :: rest =>
    let r := evalRxTick act patientId rx db view nowMs
    r :: runRxTicks patientId rx r.invActiveAfter rest

/-- A patient row of the tick query (`lineUserId: { not: null }`), together
with the prescriptions of their active inventories. -/
structure TickPatient where
  id : String
  fullName : String
  lineUserId : String
  invRxs : List Rx
deriving Repr

/-- The per-patient body of `processTick`: evaluate every active-inventory
prescription, accumulate `dueSlots`; with no due slot, `continue`; with due
slots, attempt one LINE push (`deliver`), and only on success persist one
`NotificationLog` row per due slot in a single batch.  A delivery failure
is caught and persists nothing for this patient.  Returns the rows written
plus the `users`/`items` increments. -/
def processPatientCron (db : Db) (view : String → String × Nat) (nowMs : Int)
    (deliver : String → Bool) (p : TickPatient) : List NotifRow × Nat × Nat :=
  let results := p.invRxs.map fun rx => evalRxTick true p.id rx db view nowMs
  let dueSlots := results.filterMap RxTickResult.due
  if dueSlots.isEmpty then ([], 0, 0)
  else if deliver p.lineUserId then
    (dueSlots.map fun d => ⟨p.id, d.rxId, d.slotDateYmd, d.slotHhmm, nowMs⟩,
     1, dueSlots.length)
  else ([], 0, 0)

/-- The patient loop of `processTick`: sequential over the patients of the
tick, concatenating the persisted log rows and summing the counters; the
caught per-patient delivery failure moves on to the next patient. -/
def processTickPatients (db : Db) (view : String → String × Nat) (nowMs : Int)
    (deliver : String → Bool) : List TickPatient → List NotifRow × Nat × Nat
  | [] => ([], 0, 0)
  | p :: rest =>
    let r := processPatientCron db view nowMs deliver p
    let t := processTickPatients db view nowMs deliver rest
    (r.1 ++ t.1, r.2.1 + t.2.1, r.2.2 + t.2.2)

/-- The module-level run lease of the cron controller:
`let running = false; let startedAt = 0`. -/
structure LeaseState where
  running : Bool
  startedAt : Int
deriving DecidableEq, Repr

/-- `const MAX_RUN_MS = 55_000`. -/
def MAX_RUN_MS : Int := 55000

/-- The lease-acquisition phase of `tick()`: busy when a run is marked
running and not yet stale; otherwise (after force-resetting a stale flag
when `running && nowMs - startedAt >= MAX_RUN_MS`) set `running = true;
startedAt = nowMs`.  Returns (state, acquired, staleReset). -/
def tryAcquire (st : LeaseState) (nowMs : Int) : LeaseState × Bool × Bool :=
  if st.running = true ∧ nowMs - st.startedAt < MAX_RUN_MS then (st, false, false)
  else if st.running = true ∧ nowMs - st.startedAt ≥ MAX_RUN_MS then
    ({ running := true, startedAt := nowMs }, true, true)
  else ({ running := true, startedAt := nowMs }, true, false)

/-- The `finally { running = false; startedAt = 0; }` cleanup of `tick()`. -/
def releaseLease (_ : LeaseState) : LeaseState :=
  { running := false, startedAt := 0 }

/-- Observable outcome of one `tick()` invocation.  `ran ok` covers both the
successful return and the caught-exception return (`ok = false`), between
which the `finally` cleanup runs either way; `processTick` itself executes
only in the `ran` case. -/
inductive TickOutcome where
  | forbidden
  | busy
  | ran (ok : Bool)
deriving DecidableEq, Repr

/-- The control skeleton of `tick()` (final cron version): secret guard,
lease guard with stale reset, run, guaranteed release.  `procOk` abstracts
whether `processTick` returned or threw. -/
def tickLease (st : LeaseState) (secretOk : Bool) (nowMs : Int)
    (procOk : Bool) : LeaseState × TickOutcome :=
  if secretOk = false then (st, .forbidden)
  else
    let a := tryAcquire st nowMs
    if a.2.1 = false then (a.1, .busy)
    else (releaseLease a.1, .ran procOk)

/-- A timezone-database view, modelling `Intl.DateTimeFormat` with an
explicit `timeZone` option: `valid` is recognition of the zone identifier,
and `fmtYmd`/`fmtHhmm` give the local "YYYY-MM-DD" and "HH:MM" renderings
of an instant for recognized zones. -/
structure TzDb where
  valid : String → Bool
  fmtYmd : Int → String → String
  fmtHhmm : Int → String → String

/-- Models `formatYMDInTz`: constructing `Intl.DateTimeFormat` with an
unrecognized `timeZone` throws a RangeError, modelled as `Except.error`. -/
def formatYMDInTzE (tzdb : TzDb) (t : Int) (zone : String) : Except String String :=
  if tzdb.valid zone then .ok (tzdb.fmtYmd t zone)
  else .error "RangeError: invalid time zone"

/-- Models `formatHHMMInTz`, failing the same way on unrecognized zones. -/
def formatHHMMInTzE (tzdb : TzDb) (t : Int) (zone : String) : Except String String :=
  if tzdb.valid zone then .ok (tzdb.fmtHhmm t zone)
  else .error "RangeError: invalid time zone"

/-- The `{ ymd, hhmm, minutes }` record produced by `nowInTz`. -/
structure TzInfoView where
  ymd : String
  hhmm : String
  minutes : Nat
deriving DecidableEq, Repr

/-- Port of `nowInTz` (cron.controller.ts): format the current instant in
the zone; an unrecognized zone makes the first `Intl.DateTimeFormat`
construction throw, so the whole resolution fails. -/
def nowInTzE (tzdb : TzDb) (t : Int) (zone : String) : Except String TzInfoView :=
  match formatYMDInTzE tzdb t zone with
  | .error e => .error e
  | .ok ymd =>
    match formatHHMMInTzE tzdb t zone with
    | .error e => .error e
    | .ok hhmm => .ok ⟨ymd, hhmm, hhmmToMinutes hhmm⟩

namespace LineWebhook

/-- Port of `computeWindowForSlot` from the final webhook controller
(part_005); identical window bounds to the cron version, without the
cadence field: `(winStart, winEnd)`. -/
def computeWindowForSlot (currentHHMM : String) (currentPeriod : String)
    (nextStartHHMM : Option String) : Nat × Nat :=
  let start := hhmmToMinutes currentHHMM
  let hardStop := match nextStartHHMM with
    | some n => hhmmToMinutes n
    | none => 24 * 60
  if currentPeriod = "BEFORE_BREAKFAST" ∨ currentPeriod = "BEFORE_LUNCH" ∨
      currentPeriod = "BEFORE_DINNER" then
    (start, min (start + 60) hardStop)
  else if currentPeriod = "BEFORE_BED" then (start, 24 * 60)
  else (start, hardStop)

/-- `nowMin >= winStart && nowMin < winEnd` on a webhook window pair. -/
def inWinP (w : Nat × Nat) (m : Nat) : Bool :=
  decide (w.1 ≤ m) && decide (m < w.2)

/-- The current-slot search of the final `onText` acknowledgment branch:
first slot of the (sorted, active) list whose window contains `nowMin`,
with `break` on the first hit. -/
def findCurrentSlotW : List Slot → Nat → Option Slot
  | [], _ => none
  | s :: rest, nowMin =>
    let w := computeWindowForSlot s.hhmm s.period (rest.head?.map Slot.hhmm)
    if inWinP w nowMin then some s else findCurrentSlotW rest nowMin

/-- The window the webhook loop computes for index `i` of the slot list. -/
def winPairAt (l : List Slot) (i : Nat) : Option (Nat × Nat) :=
  (l.get? i).map fun t =>
    computeWindowForSlot t.hhmm t.period ((l.get? (i + 1)).map Slot.hhmm)

/-- `s` is the first slot, in the list's (ascending) order, whose window
contains minute `m`: it occurs at an index whose window contains `m`, and
the window of every earlier index does not. -/
def isFirstCurrentW (l : List Slot) (m : Nat) (s : Slot) : Prop :=
  ∃ i, l.get? i = some s ∧
    (∃ w, winPairAt l i = some w ∧ inWinP w m = true) ∧
    ∀ j, j < i → ∀ w, winPairAt l j = some w → inWinP w m = false

/-- The per-patient state the acknowledgment handler reads and writes: the
`DoseIntake` table (for this patient) and the patient's
`MedicationInventory` entries (prescription, isActive). -/
structure AckState where
  intakes : List Intake
  invs : List (Rx × Bool)
deriving Repr

/-- The handler's reply, for a patient that was found:
`nothingToRecord` is the distinct reply
'ยังไม่พบมื้อที่ถึงเวลาในตอนนี้ หรือบันทึกไปแล้ว' sent when zero slots were
recorded; `recorded` carries the taken lines and course-finished lines. -/
inductive AckReply where
  | nothingToRecord
  | recorded (taken : List String) (finished : List String)
deriving DecidableEq, Repr

/-- A `takenList` line of `onText`. -/
def takenLine (rx : Rx) (s : Slot) : String :=
  rx.drugName ++ " — " ++ periodToThai s.period ++ " " ++ s.hhmm ++ " (" ++
    toString s.pills ++ " เม็ด)"

/-- A `finishedNow` course-complete line of `onText`. -/
def finishLine (rx : Rx) : String :=
  "🎉 คอร์สยา \"" ++ rx.drugName ++ "\" ครบแล้ว ระบบหยุดแจ้งเตือนให้แล้วค่ะ/ครับ"

/-- Models `prisma.medicationInventory.update({ where:
{ patientId_prescriptionId }, data: { isActive: false } })` on the
patient's inventory list. -/
def deactivateInv (invs : List (Rx × Bool)) (rid : String) : List (Rx × Bool) :=
  invs.map fun e => if e.1.id = rid then (e.1, false) else e

/-- One prescription's processing inside the final `onText` acknowledgment
branch: skip when no schedules; find the current slot; skip when the
(patient, prescription, date, hhmm) key already has a `DoseIntake`;
otherwise create the row with the slot's pill count, then immediately
re-check course completion, deactivating the inventory and queueing a
finish line when `sum(pills) >= quantityTotal`.  Returns the new state, the
taken line (if recorded) and the finish line (if completed now). -/
def processAckRx (pid : String) (view : String → String × Nat) (st : AckState)
    (rx : Rx) : AckState × Option String × Option String :=
  if rx.schedules.isEmpty then (st, none, none)
  else
    let tz := resolveTz rx.timezone
    let ymd := (view tz).1
    let nowMin := (view tz).2
    let sorted := sortSlots (rx.schedules.filter Slot.isActive)
    match findCurrentSlotW sorted nowMin with
    | none => (st, none, none)
    | some s =>
      let key : IntakeKey := ⟨pid, rx.id, ymd, s.hhmm⟩
      if intakeExistsL st.intakes key then (st, none, none)
      else
        let intakes1 := st.intakes ++ [⟨key, s.pills⟩]
        match rx.quantityTotal with
        | some total =>
          if sumPillsL intakes1 rx.id ≥ total then
            (⟨intakes1, deactivateInv st.invs rx.id⟩,
             some (takenLine rx s), some (finishLine rx))
          else (⟨intakes1, st.invs⟩, some (takenLine rx s), none)
        | none => (⟨intakes1, st.invs⟩, some (takenLine rx s), none)

/-- The `for (const inv of invs)` loop of the acknowledgment branch over the
snapshot of active prescriptions, threading the state and accumulating the
`takenList` and `finishedNow` lines in order. -/
def ackLoop (pid : String) (view : String → String × Nat) :
    List Rx → AckState → AckState × List String × List String
  | [], st => (st, [], [])
  | rx :: rest, st =>
    let r := processAckRx pid view st rx
    let t := ackLoop pid view rest r.1
    (t.1, r.2.1.toList ++ t.2.1, r.2.2.toList ++ t.2.2)

/-- The acknowledgment handler for a found patient (final `onText`, text =
'รับประทานยาแล้ว'): fetch the active inventories, process each, and reply
with the distinct nothing-to-record message when `takenList` is empty. -/
def onTextAck (pid : String) (view : String → String × Nat) (st0 : AckState) :
    AckState × AckReply :=
  let activeRxs := (st0.invs.filter fun e => e.2).map fun e => e.1
  let r := ackLoop pid view activeRxs st0
  if r.2.1.isEmpty then (r.1, .nothingToRecord)
  else (r.1, .recorded r.2.1 r.2.2)

end LineWebhook

/-- The `hardStop` local of `computeWindowForSlot`: the next slot's start in
minutes, or end-of-day (1440) when the slot is last. -/
def hardStopOf (nextStartHHMM : Option String) : Nat :=
  match nextStartHHMM with
  | some n => hhmmToMinutes n
  | none => 24 * 60

/-- C1: the reminder window of a slot is determined by its period tag:
before-meal periods get `[slotStart, min(slotStart+60, hardStop))`,
BEFORE_BED gets `[slotStart, 1440)`, every other period gets
`[slotStart, hardStop)` where `hardStop` is the next active slot's start or
1440 for the last slot; and the repeat cadence is 30 minutes for every
window. -/
theorem cron_window_policy (hhmm period : String) (nextStart : Option String) :
    (computeWindowForSlot hhmm period nextStart).remindEveryMin = some 30 ∧
    ((period = "BEFORE_BREAKFAST" ∨ period = "BEFORE_LUNCH" ∨
        period = "BEFORE_DINNER") →
      computeWindowForSlot hhmm period nextStart =
        ⟨hhmmToMinutes hhmm, min (hhmmToMinutes hhmm + 60) (hardStopOf nextStart),
         some 30⟩) ∧
    (period = "BEFORE_BED" →
      computeWindowForSlot hhmm period nextStart =
        ⟨hhmmToMinutes hhmm, 1440, some 30⟩) ∧
    (¬(period = "BEFORE_BREAKFAST" ∨ period = "BEFORE_LUNCH" ∨
        period = "BEFORE_DINNER") →
      period ≠ "BEFORE_BED" →
      computeWindowForSlot hhmm period nextStart =
        ⟨hhmmToMinutes hhmm, hardStopOf nextStart, some 30⟩) := by
  unfold computeWindowForSlot hardStopOf
  split_ifs with h1 h2 <;> simp_all
  intro he
  subst he
  rcases h1 with h | h | h <;> exact absurd h (by decide)

/-- Witness for C1 at a concrete slot: BEFORE_BREAKFAST 07:00 with next slot
12:00 gives window [420, 480) and cadence 30. -/
theorem cron_window_policy_witness :
    computeWindowForSlot "07:00" "BEFORE_BREAKFAST" (some "12:00") =
      ⟨420, 480, some 30⟩ :=
  ((cron_window_policy "07:00" "BEFORE_BREAKFAST" (some "12:00")).2.1
    (Or.inl rfl)).trans (by decide)

/-- C8: the tick run-lease state machine.  A run starts iff no run is
marked running or the marked run is at least `MAX_RUN_MS` (55 s) stale; the
stale flag is force-reset (overwritten) exactly in the held-and-stale case;
a held, non-stale lease yields the busy outcome with no processing and no
state change; and whenever a run starts, the running flag is cleared when
it ends, whether `processTick` succeeded or threw. -/
theorem tick_lease_state_machine (st : LeaseState) (nowMs : Int) (procOk : Bool) :
    ((tryAcquire st nowMs).2.1 = true ↔
      (st.running = false ∨ nowMs - st.startedAt ≥ MAX_RUN_MS)) ∧
    ((tryAcquire st nowMs).2.2 = true ↔
      (st.running = true ∧ nowMs - st.startedAt ≥ MAX_RUN_MS)) ∧
    (st.running = true → nowMs - st.startedAt < MAX_RUN_MS →
      tickLease st true nowMs procOk = (st, .busy)) ∧
    ((tryAcquire st nowMs).2.1 = true →
      (tickLease st true nowMs procOk).1.running = false ∧
      (tickLease st true nowMs procOk).2 = .ran procOk) := by
  unfold tickLease tryAcquire releaseLease
  split_ifs with h1 h2 <;> simp_all

/-- Witness for C8: a lease held since 0 is busy (unchanged) at 30 s and is
force-taken at 60 s, after which the flag ends cleared. -/
theorem tick_lease_state_machine_witness :
    tickLease ⟨true, 0⟩ true 30000 true = (⟨true, 0⟩, .busy) ∧
    (tryAcquire ⟨true, 0⟩ 60000).2.1 = true ∧
    (tickLease ⟨true, 0⟩ true 60000 false).1.running = false := by
  have h30 := tick_lease_state_machine ⟨true, 0⟩ 30000 true
  have h60 := tick_lease_state_machine ⟨true, 0⟩ 60000 false
  have hacq : (tryAcquire ⟨true, 0⟩ 60000).2.1 = true :=
    h60.1.mpr (Or.inr (by decide))
  exact ⟨h30.2.2.1 rfl (by decide), hacq, (h60.2.2.2 hacq).1⟩

/-- C9: timezone resolution fails closed.  Only a missing (null) or empty
timezone falls back to the default zone "Asia/Bangkok" (which, being a
recognized zone, resolves without error); a nonempty zone string is passed
through unchanged, and when it is unrecognized `nowInTz` raises the
RangeError of `Intl.DateTimeFormat` instead of silently using the default
zone. -/
theorem tz_fails_closed (tzdb : TzDb) (t : Int) (z : String) :
    resolveTz none = "Asia/Bangkok" ∧
    resolveTz (some "") = "Asia/Bangkok" ∧
    (z ≠ "" → resolveTz (some z) = z) ∧
    (tzdb.valid z = false →
      nowInTzE tzdb t z = .error "RangeError: invalid time zone") ∧
    (tzdb.valid "Asia/Bangkok" = true →
      nowInTzE tzdb t "Asia/Bangkok" =
        .ok ⟨tzdb.fmtYmd t "Asia/Bangkok", tzdb.fmtHhmm t "Asia/Bangkok",
             hhmmToMinutes (tzdb.fmtHhmm t "Asia/Bangkok")⟩) := by
  refine ⟨rfl, rfl, fun hz => ?_, fun hv => ?_, fun hv => ?_⟩
  · simp only [resolveTz]
    rw [if_neg hz]
  · unfold nowInTzE formatYMDInTzE
    rw [if_neg (by simp [hv])]
  · unfold nowInTzE formatYMDInTzE formatHHMMInTzE
    rw [if_pos hv, if_pos hv]

/-- Witness for C9: a one-zone database recognizing only the default zone
rejects "Mars/Olympus" and resolves "Asia/Bangkok". -/
theorem tz_fails_closed_witness :
    resolveTz (some "Mars/Olympus") = "Mars/Olympus" ∧
    nowInTzE ⟨fun s => s = "Asia/Bangkok", fun _ _ => "2025-06-01",
      fun _ _ => "07:05"⟩ 0 "Mars/Olympus" =
      .error "RangeError: invalid time zone" ∧
    nowInTzE ⟨fun s => s = "Asia/Bangkok", fun _ _ => "2025-06-01",
      fun _ _ => "07:05"⟩ 0 "Asia/Bangkok" = .ok ⟨"2025-06-01", "07:05", 425⟩ := by
  have h := tz_fails_closed
    ⟨fun s => s = "Asia/Bangkok", fun _ _ => "2025-06-01", fun _ _ => "07:05"⟩
    0 "Mars/Olympus"
  refine ⟨h.2.2.1 (by decide), h.2.2.2.1 (by decide), ?_⟩
  have h2 := tz_fails_closed
    ⟨fun s => s = "Asia/Bangkok", fun _ _ => "2025-06-01", fun _ _ => "07:05"⟩
    0 ""
  exact (h2.2.2.2.2 (by decide)).trans rfl

theorem winAt_zero (a : Slot) (rest : List Slot) :
    winAt (a :: rest) 0 =
      some (computeWindowForSlot a.hhmm a.period (rest.head?.map Slot.hhmm)) := by
  unfold winAt
  cases rest <;> simp

theorem winAt_succ (a : Slot) (rest : List Slot) (i : Nat) :
    winAt (a :: rest) (i + 1) = winAt rest i := by
  unfold winAt
  simp

/-- Inversion of the cron slot-selection loop: it returns `(s, w)` exactly
when `s` sits at an index whose window `w` contains the minute and every
earlier index's window does not. -/
theorem findCurrentSlot_some_iff (l : List Slot) (m : Nat) (s : Slot) (w : Window) :
    findCurrentSlot l m = some (s, w) ↔
      ∃ i, l.get? i = some s ∧ winAt l i = some w ∧ inWinB w m = true ∧
        ∀ j, j < i → ∀ w', winAt l j = some w' → inWinB w' m = false := by
  induction l with
  | nil =>
    constructor
    · intro h
      simp [findCurrentSlot] at h
    · rintro ⟨i, hi, -⟩
      simp at hi
  | cons a rest ih =>
    constructor
    · intro h
      unfold findCurrentSlot at h
      by_cases hw :
          inWinB (computeWindowForSlot a.hhmm a.period (rest.head?.map Slot.hhmm)) m = true
      · rw [if_pos hw] at h
        obtain ⟨hs, hww⟩ := Prod.mk.injEq .. ▸ Option.some.injEq .. ▸ h
        refine ⟨0, ?_, ?_, ?_, ?_⟩
        · simp [← hs]
        · rw [winAt_zero, ← hww]
        · rw [← hww]; exact hw
        · intro j hj
          omega
      · rw [if_neg hw] at h
        obtain ⟨i, hget, hwa, hwin, hfirst⟩ := ih.mp h
        refine ⟨i + 1, by simpa using hget, by simpa [winAt_succ] using hwa, hwin, ?_⟩
        intro j hj w' hw'
        cases j with
        | zero =>
          rw [winAt_zero] at hw'
          obtain rfl := Option.some.injEq .. ▸ hw'
          exact Bool.not_eq_true _ ▸ hw
        | succ j' =>
          rw [winAt_succ] at hw'
          exact hfirst j' (Nat.lt_of_succ_lt_succ hj) w' hw'
    · rintro ⟨i, hget, hwa, hwin, hfirst⟩
      unfold findCurrentSlot
      cases i with
      | zero =>
        simp only [List.get?_cons_zero, Option.some.injEq] at hget
        rw [winAt_zero, Option.some.injEq] at hwa
        subst hget
        subst hwa
        rw [if_pos hwin]
      | succ i' =>
        have h0 := hfirst 0 (Nat.succ_pos _) _ (winAt_zero a rest)
        rw [if_neg (by simp [h0])]
        refine ih.mpr ⟨i', by simpa using hget, by simpa [winAt_succ] using hwa, hwin, ?_⟩
        intro j hj w' hw'
        exact hfirst (j + 1) (Nat.succ_lt_succ hj) w' ((winAt_succ a rest j).symm ▸ hw')

/-- Inversion of the no-current-slot case: the loop returns `none` exactly
when no index's window contains the minute. -/
theorem findCurrentSlot_none_iff (l : List Slot) (m : Nat) :
    findCurrentSlot l m = none ↔
      ∀ i w, winAt l i = some w → inWinB w m = false := by
  induction l with
  | nil =>
    simp [findCurrentSlot, winAt]
  | cons a rest ih =>
    unfold findCurrentSlot
    by_cases hw :
        inWinB (computeWindowForSlot a.hhmm a.period (rest.head?.map Slot.hhmm)) m = true
    · rw [if_pos hw]
      constructor
      · intro h
        cases h
      · intro hall
        have h0 := hall 0 _ (winAt_zero a rest)
        rw [hw] at h0
        cases h0
    · rw [if_neg hw]
      rw [ih]
      constructor
      · intro hall i w' hwa
        cases i with
        | zero =>
          rw [winAt_zero, Option.some.injEq] at hwa
          subst hwa
          exact Bool.not_eq_true _ ▸ hw
        | succ i' =>
          rw [winAt_succ] at hwa
          exact hall i' w' hwa
      · intro hall i w' hwa
        exact hall (i + 1) w' ((winAt_succ a rest i).symm ▸ hwa)

theorem winPairAt_zero (a : Slot) (rest : List Slot) :
    LineWebhook.winPairAt (a :: rest) 0 =
      some (LineWebhook.computeWindowForSlot a.hhmm a.period
        (rest.head?.map Slot.hhmm)) := by
  unfold LineWebhook.winPairAt
  cases rest <;> simp

theorem winPairAt_succ (a : Slot) (rest : List Slot) (i : Nat) :
    LineWebhook.winPairAt (a :: rest) (i + 1) = LineWebhook.winPairAt rest i := by
  unfold LineWebhook.winPairAt
  simp

/-- Inversion of the acknowledgment recorder's slot search: it returns `s`
exactly when `s` is the first slot whose window contains the minute. -/
theorem findCurrentSlotW_some_iff (l : List Slot) (m : Nat) (s : Slot) :
    LineWebhook.findCurrentSlotW l m = some s ↔ LineWebhook.isFirstCurrentW l m s := by
  unfold LineWebhook.isFirstCurrentW
  induction l with
  | nil =>
    constructor
    · intro h
      cases h
    · rintro ⟨i, hi, -⟩
      simp at hi
  | cons a rest ih =>
    constructor
    · intro h
      unfold LineWebhook.findCurrentSlotW at h
      by_cases hw :
          LineWebhook.inWinP (LineWebhook.computeWindowForSlot a.hhmm a.period
            (rest.head?.map Slot.hhmm)) m = true
      · rw [if_pos hw] at h
        obtain rfl := Option.some.injEq .. ▸ h
        refine ⟨0, by simp, ⟨_, winPairAt_zero a rest, hw⟩, ?_⟩
        intro j hj
        omega
      · rw [if_neg hw] at h
        obtain ⟨i, hget, ⟨w', hwa, hwin⟩, hfirst⟩ := ih.mp h
        refine ⟨i + 1, by simpa using hget,
          ⟨w', by simpa [winPairAt_succ] using hwa, hwin⟩, ?_⟩
        intro j hj w'' hw''
        cases j with
        | zero =>
          rw [winPairAt_zero] at hw''
          obtain rfl := Option.some.injEq .. ▸ hw''
          exact Bool.not_eq_true _ ▸ hw
        | succ j' =>
          rw [winPairAt_succ] at hw''
          exact hfirst j' (Nat.lt_of_succ_lt_succ hj) w'' hw''
    · rintro ⟨i, hget, ⟨w', hwa, hwin⟩, hfirst⟩
      unfold LineWebhook.findCurrentSlotW
      cases i with
      | zero =>
        simp only [List.get?_cons_zero, Option.some.injEq] at hget
        rw [winPairAt_zero, Option.some.injEq] at hwa
        subst hget
        subst hwa
        rw [if_pos hwin]
      | succ i' =>
        have h0 := hfirst 0 (Nat.succ_pos _) _ (winPairAt_zero a rest)
        rw [if_neg (by simp [h0])]
        refine ih.mpr ⟨i', by simpa using hget,
          ⟨w', by simpa [winPairAt_succ] using hwa, hwin⟩, ?_⟩
        intro j hj w'' hw''
        exact hfirst (j + 1) (Nat.succ_lt_succ hj) w''
          ((winPairAt_succ a rest j).symm ▸ hw'')

/-- The recorder's slot search returns `none` exactly when no slot's window
contains the minute. -/
theorem findCurrentSlotW_none_iff (l : List Slot) (m : Nat) :
    LineWebhook.findCurrentSlotW l m = none ↔
      ∀ i w, LineWebhook.winPairAt l i = some w → LineWebhook.inWinP w m = false := by
  induction l with
  | nil =>
    simp [LineWebhook.findCurrentSlotW, LineWebhook.winPairAt]
  | cons a rest ih =>
    unfold LineWebhook.findCurrentSlotW
    by_cases hw :
        LineWebhook.inWinP (LineWebhook.computeWindowForSlot a.hhmm a.period
          (rest.head?.map Slot.hhmm)) m = true
    · rw [if_pos hw]
      constructor
      · intro h
        cases h
      · intro hall
        have h0 := hall 0 _ (winPairAt_zero a rest)
        rw [hw] at h0
        cases h0
    · rw [if_neg hw]
      rw [ih]
      constructor
      · intro hall i w' hwa
        cases i with
        | zero =>
          rw [winPairAt_zero, Option.some.injEq] at hwa
          subst hwa
          exact Bool.not_eq_true _ ▸ hw
        | succ i' =>
          rw [winPairAt_succ] at hwa
          exact hall i' w' hwa
      · intro hall i w' hwa
        exact hall (i + 1) w' ((winPairAt_succ a rest i).symm ▸ hwa)

/-- C2: for every prescription and evaluation instant at most one slot is
selected as current, in both the tick and the acknowledgment calculators:
the selection loops return the first slot, in the ascending order of the
slot list, whose window contains the current minute-of-day (so no later
slot is considered once one matches), and return nothing exactly when no
slot's window contains the minute. -/
theorem current_slot_first_match (l : List Slot) (m : Nat) :
    (∀ s w, findCurrentSlot l m = some (s, w) →
      ∃ i, l.get? i = some s ∧ winAt l i = some w ∧ inWinB w m = true ∧
        ∀ j, j < i → ∀ w', winAt l j = some w' → inWinB w' m = false) ∧
    (findCurrentSlot l m = none →
      ∀ i w, winAt l i = some w → inWinB w m = false) ∧
    (∀ s, LineWebhook.findCurrentSlotW l m = some s →
      LineWebhook.isFirstCurrentW l m s) ∧
    (LineWebhook.findCurrentSlotW l m = none →
      ∀ i w, LineWebhook.winPairAt l i = some w →
        LineWebhook.inWinP w m = false) := by
  refine ⟨?_, ?_, ?_, ?_⟩
  · intro s w h
    exact (findCurrentSlot_some_iff l m s w).mp h
  · intro h
    exact (findCurrentSlot_none_iff l m).mp h
  · intro s h
    exact (findCurrentSlotW_some_iff l m s).mp h
  · intro h
    exact (findCurrentSlotW_none_iff l m).mp h

/-- Witness for C2: with two slots 07:00 (before breakfast) and 12:00
(after lunch), minute 425 selects the 07:00 slot (the first match). -/
theorem current_slot_first_match_witness :
    ∃ i, [Slot.mk "BEFORE_BREAKFAST" "07:00" 1 true,
          Slot.mk "AFTER_LUNCH" "12:00" 1 true].get? i =
        some (Slot.mk "BEFORE_BREAKFAST" "07:00" 1 true) ∧
      winAt [Slot.mk "BEFORE_BREAKFAST" "07:00" 1 true,
             Slot.mk "AFTER_LUNCH" "12:00" 1 true] i = some ⟨420, 480, some 30⟩ ∧
      inWinB ⟨420, 480, some 30⟩ 425 = true ∧
      ∀ j, j < i → ∀ w',
        winAt [Slot.mk "BEFORE_BREAKFAST" "07:00" 1 true,
               Slot.mk "AFTER_LUNCH" "12:00" 1 true] j = some w' →
          inWinB w' 425 = false :=
  (current_slot_first_match
    [Slot.mk "BEFORE_BREAKFAST" "07:00" 1 true,
     Slot.mk "AFTER_LUNCH" "12:00" 1 true] 425).1
    (Slot.mk "BEFORE_BREAKFAST" "07:00" 1 true) ⟨420, 480, some 30⟩ (by decide)

theorem computeWindow_remind (hhmm period : String) (next : Option String) :
    (computeWindowForSlot hhmm period next).remindEveryMin = some 30 := by
  unfold computeWindowForSlot
  split_ifs <;> rfl

theorem findCurrentSlot_remind (l : List Slot) (m : Nat) (s : Slot) (w : Window)
    (h : findCurrentSlot l m = some (s, w)) : w.remindEveryMin = some 30 := by
  induction l with
  | nil => cases h
  | cons a rest ih =>
    unfold findCurrentSlot at h
    by_cases hw :
        inWinB (computeWindowForSlot a.hhmm a.period (rest.head?.map Slot.hhmm)) m = true
    · rw [if_pos hw] at h
      obtain ⟨-, hww⟩ := Prod.mk.injEq .. ▸ Option.some.injEq .. ▸ h
      rw [← hww]
      exact computeWindow_remind a.hhmm a.period (rest.head?.map Slot.hhmm)
    · rw [if_neg hw] at h
      exact ih h

/-- Inversion of the per-slot phase of `processTick`: an emitted due slot
comes from the selected current slot, which passed the already-taken check
and the 30-minute cadence check. -/
theorem evalRxSlots_eq_some (pid : String) (rx : Rx) (db : Db) (ymd : String)
    (nowMin : Nat) (nowMs : Int) (d : DueSlot)
    (h : evalRxSlots pid rx db ymd nowMin nowMs = some d) :
    ∃ s w,
      findCurrentSlot (sortSlots (rx.schedules.filter Slot.isActive)) nowMin =
        some (s, w) ∧
      intakeExistsL db.intakes ⟨pid, rx.id, ymd, s.hhmm⟩ = false ∧
      (∀ t, lastNotifSentAt db ⟨pid, rx.id, ymd, s.hhmm⟩ = some t →
        nowMs - t ≥ 30 * 60000) ∧
      d = ⟨rx.id, rx.drugName, resolveTz rx.timezone, mkLabel rx s, s.hhmm,
           s.pills, ymd, s.period⟩ := by
  unfold evalRxSlots at h
  dsimp only at h
  cases hf : findCurrentSlot (sortSlots (rx.schedules.filter Slot.isActive)) nowMin with
  | none =>
    rw [hf] at h
    cases h
  | some sw =>
    obtain ⟨s, w⟩ := sw
    rw [hf] at h
    dsimp only at h
    by_cases hni : intakeExistsL db.intakes ⟨pid, rx.id, ymd, s.hhmm⟩ = true
    · rw [if_pos hni] at h
      cases h
    · rw [if_neg hni] at h
      have hrem := findCurrentSlot_remind _ _ _ _ hf
      refine ⟨s, w, rfl, Bool.not_eq_true _ ▸ hni, ?_, ?_⟩
      · intro t ht
        rw [ht] at h
        dsimp only at h
        by_cases hc : nowMs - t ≥ ((w.remindEveryMin.getD REMIND_DEFAULT_MIN : Nat) : Int) * 60000
        · rw [hrem] at hc
          simpa using hc
        · rw [if_neg (by simpa using hc)] at h
          cases h
      · cases hl : lastNotifSentAt db ⟨pid, rx.id, ymd, s.hhmm⟩ with
        | none =>
          rw [hl] at h
          dsimp only at h
          rw [if_pos rfl] at h
          exact (Option.some.injEq .. ▸ h).symm
        | some t =>
          rw [hl] at h
          dsimp only at h
          by_cases hc : nowMs - t ≥ ((w.remindEveryMin.getD REMIND_DEFAULT_MIN : Nat) : Int) * 60000
          · rw [if_pos (by simpa using hc)] at h
            exact (Option.some.injEq .. ▸ h).symm
          · rw [if_neg (by simpa using hc)] at h
            cases h

/-- The per-slot phase of `processTick` does emit when the selected current
slot has no intake for its key and the cadence check passes. -/
theorem evalRxSlots_emits (pid : String) (rx : Rx) (db : Db) (ymd : String)
    (nowMin : Nat) (nowMs : Int) (s : Slot) (w : Window)
    (hf : findCurrentSlot (sortSlots (rx.schedules.filter Slot.isActive)) nowMin =
      some (s, w))
    (hni : intakeExistsL db.intakes ⟨pid, rx.id, ymd, s.hhmm⟩ = false)
    (hcad : ∀ t, lastNotifSentAt db ⟨pid, rx.id, ymd, s.hhmm⟩ = some t →
      nowMs - t ≥ 30 * 60000) :
    evalRxSlots pid rx db ymd nowMin nowMs =
      some ⟨rx.id, rx.drugName, resolveTz rx.timezone, mkLabel rx s, s.hhmm,
            s.pills, ymd, s.period⟩ := by
  unfold evalRxSlots
  dsimp only
  rw [hf]
  dsimp only
  rw [if_neg (by simp [hni])]
  have hrem := findCurrentSlot_remind _ _ _ _ hf
  cases hl : lastNotifSentAt db ⟨pid, rx.id, ymd, s.hhmm⟩ with
  | none =>
    dsimp only
    rw [if_pos rfl]
  | some t =>
    dsimp only
    rw [if_pos (by rw [hrem]; simpa using hcad t hl)]

/-- Inversion of `evalRxTick`: any emitted due slot comes from the per-slot
phase, evaluated at the prescription's own local date and minute. -/
theorem evalRxTick_due_some (b : Bool) (pid : String) (rx : Rx) (db : Db)
    (view : String → String × Nat) (nowMs : Int) (d : DueSlot)
    (h : (evalRxTick b pid rx db view nowMs).due = some d) :
    evalRxSlots pid rx db (view (resolveTz rx.timezone)).1
      (view (resolveTz rx.timezone)).2 nowMs = some d := by
  unfold evalRxTick at h
  dsimp only at h
  by_cases hb : b = false
  · rw [if_pos hb] at h
    cases h
  · rw [if_neg hb] at h
    by_cases hs : rx.schedules.isEmpty = true
    · rw [if_pos hs] at h
      cases h
    · rw [if_neg hs] at h
      by_cases hd : dateOk rx (view (resolveTz rx.timezone)).1 = false
      · rw [if_pos hd] at h
        cases h
      · rw [if_neg hd] at h
        cases ht : rx.quantityTotal with
        | none =>
          rw [ht] at h
          exact h
        | some total =>
          rw [ht] at h
          dsimp only at h
          by_cases hsum : sumPillsL db.intakes rx.id ≥ total
          · rw [if_pos hsum] at h
            cases h
          · rw [if_neg hsum] at h
            exact h

/-- Concrete fixtures used by witnesses: a two-slot prescription (07:00
before breakfast, 12:00 after lunch) and a time view at 07:05 local on
2025-06-01. -/
def wSlot7 : Slot := ⟨"BEFORE_BREAKFAST", "07:00", 1, true⟩

def wSlot12 : Slot := ⟨"AFTER_LUNCH", "12:00", 2, true⟩

def wRx : Rx := ⟨"rx1", "DrugA", none, "2025-01-01", none, none, [wSlot7, wSlot12]⟩

def wView : String → String × Nat := fun _ => ("2025-06-01", 425)

/-- C3: the already-taken check takes precedence over the cadence check —
whenever a `DoseIntake` row exists for a (patient, prescription, date,
slot) key, no tick evaluation whose local date is that date emits a
reminder for that key, whatever the notification log and elapsed times
say. -/
theorem taken_suppresses_reminders (b : Bool) (pid : String) (rx : Rx)
    (db : Db) (view : String → String × Nat) (nowMs : Int) (ymd hh : String)
    (htaken : intakeExistsL db.intakes ⟨pid, rx.id, ymd, hh⟩ = true) :
    ∀ d, (evalRxTick b pid rx db view nowMs).due = some d →
      ¬(d.slotDateYmd = ymd ∧ d.slotHhmm = hh) := by
  intro d h hdk
  obtain ⟨h1, h2⟩ := hdk
  have hslots := evalRxTick_due_some b pid rx db view nowMs d h
  obtain ⟨s, w, hf, hni, -, hd⟩ :=
    evalRxSlots_eq_some pid rx db (view (resolveTz rx.timezone)).1
      (view (resolveTz rx.timezone)).2 nowMs d hslots
  subst hd
  dsimp only at h1 h2
  rw [h1, h2] at hni
  rw [htaken] at hni
  cases hni

/-- Witness for C3: an intake recorded for the 12:00 slot leaves the 07:00
slot due, and the emitted due slot is indeed not the taken key. -/
theorem taken_suppresses_reminders_witness :
    ¬((DueSlot.mk "rx1" "DrugA" "Asia/Bangkok"
        "ก่อนอาหารเช้า 07:00 — DrugA 1 เม็ด" "07:00" 1 "2025-06-01"
        "BEFORE_BREAKFAST").slotDateYmd = "2025-06-01" ∧
      (DueSlot.mk "rx1" "DrugA" "Asia/Bangkok"
        "ก่อนอาหารเช้า 07:00 — DrugA 1 เม็ด" "07:00" 1 "2025-06-01"
        "BEFORE_BREAKFAST").slotHhmm = "12:00") :=
  taken_suppresses_reminders true "p1" wRx
    ⟨[⟨⟨"p1", "rx1", "2025-06-01", "12:00"⟩, 2⟩], []⟩ wView 0 "2025-06-01" "12:00"
    (by decide)
    (DueSlot.mk "rx1" "DrugA" "Asia/Bangkok"
      "ก่อนอาหารเช้า 07:00 — DrugA 1 เม็ด" "07:00" 1 "2025-06-01"
      "BEFORE_BREAKFAST")
    (by decide)

/-- C4: the cadence gate.  With T the most recent `sentAt` for a key, no
tick emits a reminder for that key while `now − T < 30` minutes; and
whenever the current slot carries that key, no intake exists for it and
`now − T ≥ 30` minutes, the reminder is emitted. -/
theorem cadence_30min_gate (pid : String) (rx : Rx) (db : Db) (nowMs : Int)
    (ymd hh : String) (T : Int) :
    (∀ (b : Bool) (view : String → String × Nat),
      lastNotifSentAt db ⟨pid, rx.id, ymd, hh⟩ = some T →
      nowMs - T < 30 * 60000 →
      ∀ d, (evalRxTick b pid rx db view nowMs).due = some d →
        ¬(d.slotDateYmd = ymd ∧ d.slotHhmm = hh)) ∧
    (∀ (nowMin : Nat) (s : Slot) (w : Window),
      findCurrentSlot (sortSlots (rx.schedules.filter Slot.isActive)) nowMin =
        some (s, w) →
      s.hhmm = hh →
      intakeExistsL db.intakes ⟨pid, rx.id, ymd, hh⟩ = false →
      lastNotifSentAt db ⟨pid, rx.id, ymd, hh⟩ = some T →
      nowMs - T ≥ 30 * 60000 →
      evalRxSlots pid rx db ymd nowMin nowMs =
        some ⟨rx.id, rx.drugName, resolveTz rx.timezone, mkLabel rx s, s.hhmm,
              s.pills, ymd, s.period⟩) := by
  constructor
  · intro b view hlast hlt d h hdk
    obtain ⟨h1, h2⟩ := hdk
    have hslots := evalRxTick_due_some b pid rx db view nowMs d h
    obtain ⟨s, w, hf, hni, hcad, hd⟩ :=
      evalRxSlots_eq_some pid rx db (view (resolveTz rx.timezone)).1
        (view (resolveTz rx.timezone)).2 nowMs d hslots
    subst hd
    dsimp only at h1 h2
    rw [h1, h2] at hcad
    have := hcad T hlast
    omega
  · intro nowMin s w hf hsh hni hlast hge
    subst hsh
    exact evalRxSlots_emits pid rx db ymd nowMin nowMs s w hf hni
      (fun t ht => by
        rw [hlast] at ht
        obtain rfl := Option.some.injEq .. ▸ ht
        exact hge)

/-- Witness for C4: with the last reminder at time 0, the 07:00 slot is
re-emitted exactly at the 30-minute mark. -/
theorem cadence_30min_gate_witness :
    evalRxSlots "p1" wRx
      ⟨[], [⟨"p1", "rx1", "2025-06-01", "07:00", 0⟩]⟩ "2025-06-01" 425 1800000 =
      some ⟨"rx1", "DrugA", "Asia/Bangkok",
            "ก่อนอาหารเช้า 07:00 — DrugA 1 เม็ด", "07:00", 1, "2025-06-01",
            "BEFORE_BREAKFAST"⟩ :=
  ((cadence_30min_gate "p1" wRx
      ⟨[], [⟨"p1", "rx1", "2025-06-01", "07:00", 0⟩]⟩ 1800000 "2025-06-01"
      "07:00" 0).2 425 wSlot7 ⟨420, 480, some 30⟩ (by decide) rfl (by decide)
      (by decide) (by decide)).trans (by decide)

theorem evalRxTick_inactive (pid : String) (rx : Rx) (db : Db)
    (view : String → String × Nat) (nowMs : Int) :
    evalRxTick false pid rx db view nowMs = ⟨none, false, false⟩ := rfl

theorem runRxTicks_inactive (pid : String) (rx : Rx)
    (ticks : List (Db × (String → String × Nat) × Int)) :
    ∀ r ∈ runRxTicks pid rx false ticks, r.due = none ∧ r.completionSent = false := by
  induction ticks with
  | nil =>
    intro r hr
    cases hr
  | cons t rest ih =>
    obtain ⟨db, view, nowMs⟩ := t
    intro r hr
    unfold runRxTicks at hr
    rw [evalRxTick_inactive] at hr
    rcases List.mem_cons.mp hr with rfl | hr'
    · exact ⟨rfl, rfl⟩
    · exact ih r hr'

/-- C5: course completion.  On a tick where a prescription with a quantity
cap is date-eligible and the recorded pills reach the cap, the tick emits
no reminder, pushes the one-time course-complete message, and deactivates
the inventory; and from the deactivated state every later tick — whatever
intake or notification rows its database holds — emits no reminder and
never re-sends the completion message. -/
theorem course_completion (pid : String) (rx : Rx) (total : Nat) (db : Db)
    (view : String → String × Nat) (nowMs : Int)
    (rest : List (Db × (String → String × Nat) × Int))
    (htot : rx.quantityTotal = some total)
    (hsum : sumPillsL db.intakes rx.id ≥ total)
    (hsch : rx.schedules.isEmpty = false)
    (hdate : dateOk rx (view (resolveTz rx.timezone)).1 = true) :
    runRxTicks pid rx true ((db, view, nowMs) :: rest) =
      ⟨none, true, false⟩ :: runRxTicks pid rx false rest ∧
    ∀ r ∈ runRxTicks pid rx false rest,
      r.due = none ∧ r.completionSent = false := by
  have hhead : evalRxTick true pid rx db view nowMs = ⟨none, true, false⟩ := by
    unfold evalRxTick
    dsimp only
    rw [if_neg (by simp), if_neg (by simp [hsch]), if_neg (by simp [hdate]), htot]
    dsimp only
    rw [if_pos hsum]
  constructor
  · simp only [runRxTicks]
    rw [hhead]
  · exact runRxTicks_inactive pid rx rest

/-- Fixtures for the C5 witness: a capped prescription (2 pills total), a
database whose intakes sum to the cap, and a later database with extra
(incorrectly inserted) intake and notification rows. -/
def wRxQ : Rx := ⟨"rx1", "DrugA", none, "2025-01-01", none, some 2, [wSlot7, wSlot12]⟩

def wDbFull : Db :=
  ⟨[⟨⟨"p1", "rx1", "2025-06-01", "07:00"⟩, 1⟩,
    ⟨⟨"p1", "rx1", "2025-05-31", "19:00"⟩, 1⟩], []⟩

def wDbLater : Db :=
  ⟨[⟨⟨"p1", "rx1", "2025-06-01", "07:00"⟩, 1⟩,
    ⟨⟨"p1", "rx1", "2025-05-31", "19:00"⟩, 1⟩,
    ⟨⟨"p1", "rx1", "2025-06-02", "07:00"⟩, 5⟩],
   [⟨"p1", "rx1", "2025-06-02", "07:00", 777⟩]⟩

/-- Witness for C5: the completing tick deactivates and notifies once, and
the following tick (with extra rows inserted) emits nothing. -/
theorem course_completion_witness :
    runRxTicks "p1" wRxQ true [(wDbFull, wView, 0), (wDbLater, wView, 999999999)] =
      ⟨none, true, false⟩ ::
        runRxTicks "p1" wRxQ false [(wDbLater, wView, 999999999)] ∧
    ∀ r ∈ runRxTicks "p1" wRxQ false [(wDbLater, wView, 999999999)],
      r.due = none ∧ r.completionSent = false :=
  course_completion "p1" wRxQ 2 wDbFull wView 0
    [(wDbLater, wView, 999999999)] (by decide) (by decide) (by decide) (by decide)

/-- C7: a patient's delivery failure persists nothing and is isolated.
When a patient has at least one due slot and the LINE push to them fails,
no `NotificationLog` row is written for them this tick and the tick's
outcome over the remaining patients is exactly as if the failing patient
had been skipped: delivery failure never aborts the run. -/
theorem delivery_failure_isolated (db : Db) (view : String → String × Nat)
    (nowMs : Int) (deliver : String → Bool) (p : TickPatient)
    (rest : List TickPatient)
    (hfail : deliver p.lineUserId = false)
    (hdue : ((p.invRxs.map fun rx => evalRxTick true p.id rx db view nowMs).filterMap
      RxTickResult.due) ≠ []) :
    processPatientCron db view nowMs deliver p = ([], 0, 0) ∧
    processTickPatients db view nowMs deliver (p :: rest) =
      processTickPatients db view nowMs deliver rest := by
  have hp : processPatientCron db view nowMs deliver p = ([], 0, 0) := by
    unfold processPatientCron
    dsimp only
    rw [if_neg (by simpa using hdue), if_neg (by simp [hfail])]
  refine ⟨hp, ?_⟩
  simp only [processTickPatients]
  rw [hp]
  simp

/-- Witness for C7: with a due 07:00 slot and failing delivery, the tick
writes no row for the patient and continues with the rest (here none). -/
theorem delivery_failure_isolated_witness :
    processPatientCron ⟨[], []⟩ wView 0 (fun _ => false)
      ⟨"p1", "Alice", "U1", [wRx]⟩ = ([], 0, 0) ∧
    processTickPatients ⟨[], []⟩ wView 0 (fun _ => false)
      [⟨"p1", "Alice", "U1", [wRx]⟩] =
      processTickPatients ⟨[], []⟩ wView 0 (fun _ => false) [] :=
  delivery_failure_isolated ⟨[], []⟩ wView 0 (fun _ => false)
    ⟨"p1", "Alice", "U1", [wRx]⟩ [] (by decide) (by decide)

namespace LineWebhook

/-- Per-prescription inversion of the acknowledgment recorder: either no
current slot (state unchanged, nothing reported), or the current slot's key
already has an intake (state unchanged, nothing reported — the idempotent
skip), or exactly one intake row carrying the slot's pill count is
appended, with the inventory either kept or deactivated by the immediate
completion re-check. -/
theorem processAckRx_shape (pid : String) (view : String → String × Nat)
    (st : AckState) (rx : Rx) :
    (findCurrentSlotW (sortSlots (rx.schedules.filter Slot.isActive))
        (view (resolveTz rx.timezone)).2 = none ∧
      processAckRx pid view st rx = (st, none, none)) ∨
    (∃ s, findCurrentSlotW (sortSlots (rx.schedules.filter Slot.isActive))
        (view (resolveTz rx.timezone)).2 = some s ∧
      intakeExistsL st.intakes
        ⟨pid, rx.id, (view (resolveTz rx.timezone)).1, s.hhmm⟩ = true ∧
      processAckRx pid view st rx = (st, none, none)) ∨
    (∃ s, findCurrentSlotW (sortSlots (rx.schedules.filter Slot.isActive))
        (view (resolveTz rx.timezone)).2 = some s ∧
      intakeExistsL st.intakes
        ⟨pid, rx.id, (view (resolveTz rx.timezone)).1, s.hhmm⟩ = false ∧
      (processAckRx pid view st rx).1.intakes =
        st.intakes ++
          [⟨⟨pid, rx.id, (view (resolveTz rx.timezone)).1, s.hhmm⟩, s.pills⟩] ∧
      ((processAckRx pid view st rx).1.invs = st.invs ∨
        (processAckRx pid view st rx).1.invs = deactivateInv st.invs rx.id) ∧
      (processAckRx pid view st rx).2.1 = some (takenLine rx s)) := by
  unfold processAckRx
  dsimp only
  by_cases hemp : rx.schedules.isEmpty = true
  · rw [if_pos hemp]
    have hnil : rx.schedules = [] := by simpa using hemp
    left
    constructor
    · rw [hnil]
      rfl
    · rfl
  · rw [if_neg hemp]
    cases hf : findCurrentSlotW (sortSlots (rx.schedules.filter Slot.isActive))
        (view (resolveTz rx.timezone)).2 with
    | none =>
      left
      exact ⟨rfl, rfl⟩
    | some s =>
      dsimp only
      by_cases hex : intakeExistsL st.intakes
          ⟨pid, rx.id, (view (resolveTz rx.timezone)).1, s.hhmm⟩ = true
      · rw [if_pos hex]
        right; left
        exact ⟨s, rfl, hex, rfl⟩
      · rw [if_neg hex]
        cases hq : rx.quantityTotal with
        | none =>
          right; right
          exact ⟨s, rfl, Bool.not_eq_true _ ▸ hex, rfl, Or.inl rfl, rfl⟩
        | some total =>
          dsimp only
          by_cases hs : sumPillsL
              (st.intakes ++
                [⟨⟨pid, rx.id, (view (resolveTz rx.timezone)).1, s.hhmm⟩, s.pills⟩])
              rx.id ≥ total
          · rw [if_pos hs]
            right; right
            exact ⟨s, rfl, Bool.not_eq_true _ ▸ hex, rfl, Or.inr rfl, rfl⟩
          · rw [if_neg hs]
            right; right
            exact ⟨s, rfl, Bool.not_eq_true _ ▸ hex, rfl, Or.inl rfl, rfl⟩

end LineWebhook

namespace LineWebhook

theorem mem_deactivateInv_active (invs : List (Rx × Bool)) (rid : String)
    (e : Rx × Bool) (he : e ∈ deactivateInv invs rid) (ha : e.2 = true) :
    e ∈ invs := by
  unfold deactivateInv at he
  obtain ⟨e0, he0, heq⟩ := List.mem_map.mp he
  by_cases h : e0.1.id = rid
  · rw [if_pos h] at heq
    rw [← heq] at ha
    cases ha
  · rw [if_neg h] at heq
    rw [← heq]
    exact he0

theorem processAckRx_intakes_mono (pid : String) (view : String → String × Nat)
    (st : AckState) (rx : Rx) :
    ∃ app, (processAckRx pid view st rx).1.intakes = st.intakes ++ app := by
  rcases processAckRx_shape pid view st rx with ⟨-, heq⟩ | ⟨s, -, -, heq⟩ |
    ⟨s, -, -, hint, -, -⟩
  · exact ⟨[], by rw [heq]; simp⟩
  · exact ⟨[], by rw [heq]; simp⟩
  · exact ⟨_, hint⟩

theorem processAckRx_invs_active (pid : String) (view : String → String × Nat)
    (st : AckState) (rx : Rx) (e : Rx × Bool)
    (he : e ∈ (processAckRx pid view st rx).1.invs) (ha : e.2 = true) :
    e ∈ st.invs := by
  rcases processAckRx_shape pid view st rx with ⟨-, heq⟩ | ⟨s, -, -, heq⟩ |
    ⟨s, -, -, -, hinv, -⟩
  · rw [heq] at he
    exact he
  · rw [heq] at he
    exact he
  · rcases hinv with hinv | hinv
    · rw [hinv] at he
      exact he
    · rw [hinv] at he
      exact mem_deactivateInv_active st.invs rx.id e he ha

/-- The current slot of `rx` (if any) already has its `DoseIntake` row in
`intakes` — the idempotency postcondition the recorder establishes. -/
def ackKeyDone (pid : String) (view : String → String × Nat)
    (intakes : List Intake) (rx : Rx) : Prop :=
  ∀ s, findCurrentSlotW (sortSlots (rx.schedules.filter Slot.isActive))
      (view (resolveTz rx.timezone)).2 = some s →
    intakeExistsL intakes
      ⟨pid, rx.id, (view (resolveTz rx.timezone)).1, s.hhmm⟩ = true

theorem intakeExistsL_append (l app : List Intake) (k : IntakeKey)
    (h : intakeExistsL l k = true) : intakeExistsL (l ++ app) k = true := by
  unfold intakeExistsL at h ⊢
  rw [List.any_append, h]
  rfl

theorem ackKeyDone_mono (pid : String) (view : String → String × Nat)
    (l app : List Intake) (rx : Rx) (h : ackKeyDone pid view l rx) :
    ackKeyDone pid view (l ++ app) rx :=
  fun s hs => intakeExistsL_append l app _ (h s hs)

theorem processAckRx_done (pid : String) (view : String → String × Nat)
    (st : AckState) (rx : Rx) :
    ackKeyDone pid view (processAckRx pid view st rx).1.intakes rx := by
  rcases processAckRx_shape pid view st rx with ⟨hf, heq⟩ |
    ⟨s, hf, hex, heq⟩ | ⟨s, hf, -, hint, -, -⟩
  · intro s hs
    rw [hf] at hs
    cases hs
  · intro s' hs'
    rw [hf, Option.some.injEq] at hs'
    subst hs'
    rw [heq]
    exact hex
  · intro s' hs'
    rw [hf, Option.some.injEq] at hs'
    subst hs'
    rw [hint]
    unfold intakeExistsL
    rw [List.any_append]
    simp

end LineWebhook

namespace LineWebhook

theorem ackLoop_intakes_mono (pid : String) (view : String → String × Nat)
    (rxs : List Rx) :
    ∀ st : AckState, ∃ app, (ackLoop pid view rxs st).1.intakes = st.intakes ++ app := by
  induction rxs with
  | nil =>
    intro st
    exact ⟨[], by simp [ackLoop]⟩
  | cons rx rest ih =>
    intro st
    obtain ⟨app1, h1⟩ := processAckRx_intakes_mono pid view st rx
    obtain ⟨app2, h2⟩ := ih (processAckRx pid view st rx).1
    refine ⟨app1 ++ app2, ?_⟩
    show (ackLoop pid view rest (processAckRx pid view st rx).1).1.intakes = _
    rw [h2, h1, List.append_assoc]

theorem ackLoop_invs_active (pid : String) (view : String → String × Nat)
    (rxs : List Rx) :
    ∀ (st : AckState) (e : Rx × Bool),
      e ∈ (ackLoop pid view rxs st).1.invs → e.2 = true → e ∈ st.invs := by
  induction rxs with
  | nil =>
    intro st e he _
    exact he
  | cons rx rest ih =>
    intro st e he ha
    have he' : e ∈ (ackLoop pid view rest (processAckRx pid view st rx).1).1.invs := he
    exact processAckRx_invs_active pid view st rx e
      (ih (processAckRx pid view st rx).1 e he' ha) ha

theorem ackLoop_done (pid : String) (view : String → String × Nat)
    (rxs : List Rx) :
    ∀ (st : AckState) (rx : Rx), rx ∈ rxs →
      ackKeyDone pid view (ackLoop pid view rxs st).1.intakes rx := by
  induction rxs with
  | nil =>
    intro st rx hmem
    cases hmem
  | cons a rest ih =>
    intro st rx hmem
    rcases List.mem_cons.mp hmem with rfl | hmem'
    · have hd := processAckRx_done pid view st rx
      obtain ⟨app, happ⟩ := ackLoop_intakes_mono pid view rest (processAckRx pid view st rx).1
      have : (ackLoop pid view (rx :: rest) st).1.intakes =
          (processAckRx pid view st rx).1.intakes ++ app := happ
      rw [this]
      exact ackKeyDone_mono pid view _ app rx hd
    · exact ih (processAckRx pid view st a).1 rx hmem'

theorem ackLoop_noop (pid : String) (view : String → String × Nat)
    (rxs : List Rx) :
    ∀ st : AckState, (∀ rx ∈ rxs, ackKeyDone pid view st.intakes rx) →
      ackLoop pid view rxs st = (st, [], []) := by
  induction rxs with
  | nil =>
    intro st _
    rfl
  | cons a rest ih =>
    intro st h
    have hstep : processAckRx pid view st a = (st, none, none) := by
      rcases processAckRx_shape pid view st a with ⟨-, heq⟩ |
        ⟨s, -, -, heq⟩ | ⟨s, hf, hex, -, -, -⟩
      · exact heq
      · exact heq
      · rw [h a (List.mem_cons_self a rest) s hf] at hex
        cases hex
    show (let r := processAckRx pid view st a;
      let t := ackLoop pid view rest r.1;
      (t.1, r.2.1.toList ++ t.2.1, r.2.2.toList ++ t.2.2)) = (st, [], [])
    rw [hstep]
    dsimp only
    rw [ih st (fun rx hrx => h rx (List.mem_cons_of_mem a hrx))]
    rfl

theorem onTextAck_state (pid : String) (view : String → String × Nat)
    (st : AckState) :
    (onTextAck pid view st).1 =
      (ackLoop pid view ((st.invs.filter fun e => e.2).map fun e => e.1) st).1 := by
  unfold onTextAck
  dsimp only
  split_ifs <;> rfl

end LineWebhook

/-- C6: the acknowledgment handler is idempotent.  Calling it twice in
immediate succession (same instant, hence same time view) for the same
patient creates no new `DoseIntake` row on the second call — every slot
recorded by the first call is skipped by the uniqueness check — and the
second call replies with the distinct nothing-to-record response instead
of an empty success. -/
theorem ack_handler_idempotent (pid : String) (view : String → String × Nat)
    (st0 : LineWebhook.AckState) :
    (LineWebhook.onTextAck pid view (LineWebhook.onTextAck pid view st0).1).1.intakes =
      (LineWebhook.onTextAck pid view st0).1.intakes ∧
    (LineWebhook.onTextAck pid view (LineWebhook.onTextAck pid view st0).1).2 =
      LineWebhook.AckReply.nothingToRecord := by
  set st1 := (LineWebhook.onTextAck pid view st0).1 with hst1
  have hdone : ∀ rx ∈ (st1.invs.filter fun e => e.2).map (fun e => e.1),
      LineWebhook.ackKeyDone pid view st1.intakes rx := by
    intro rx hrx
    obtain ⟨e, he, heq⟩ := List.mem_map.mp hrx
    obtain ⟨hemem, hef⟩ := List.mem_filter.mp he
    have ha : e.2 = true := by simpa using hef
    have he0 : e ∈ st0.invs := by
      rw [hst1, LineWebhook.onTextAck_state] at hemem
      exact LineWebhook.ackLoop_invs_active pid view _ st0 e hemem ha
    have hrx1 : rx ∈ (st0.invs.filter fun e => e.2).map (fun e => e.1) :=
      List.mem_map.mpr ⟨e, List.mem_filter.mpr ⟨he0, by simpa using ha⟩, heq⟩
    have hd := LineWebhook.ackLoop_done pid view _ st0 rx hrx1
    rw [hst1, LineWebhook.onTextAck_state]
    exact hd
  have hloop := LineWebhook.ackLoop_noop pid view
    ((st1.invs.filter fun e => e.2).map fun e => e.1) st1 hdone
  constructor
  · show (LineWebhook.onTextAck pid view st1).1.intakes = st1.intakes
    rw [LineWebhook.onTextAck_state, hloop]
  · show (LineWebhook.onTextAck pid view st1).2 = _
    unfold LineWebhook.onTextAck
    dsimp only
    rw [hloop]
    rfl

namespace LineWebhook

/-- The rows the acknowledgment loop appends: each comes from the first
matching slot of one of the processed prescriptions, and per prescription
id no more rows are created than the id occurs in the processed list. -/
theorem ackLoop_created (pid : String) (view : String → String × Nat)
    (rxs : List Rx) :
    ∀ st : AckState, ∃ app,
      (ackLoop pid view rxs st).1.intakes = st.intakes ++ app ∧
      (∀ r ∈ app, ∃ rx, rx ∈ rxs ∧ ∃ s,
        findCurrentSlotW (sortSlots (rx.schedules.filter Slot.isActive))
          (view (resolveTz rx.timezone)).2 = some s ∧
        r = ⟨⟨pid, rx.id, (view (resolveTz rx.timezone)).1, s.hhmm⟩, s.pills⟩) ∧
      ∀ rid, (app.filter fun r => r.key.prescriptionId = rid).length ≤
        (rxs.filter fun rx => rx.id = rid).length := by
  induction rxs with
  | nil =>
    intro st
    refine ⟨[], by simp [ackLoop], ?_, ?_⟩
    · intro r hr
      cases hr
    · intro rid
      simp
  | cons a rest ih =>
    intro st
    obtain ⟨app2, h2, hmem2, hcnt2⟩ := ih (processAckRx pid view st a).1
    have hcons : (ackLoop pid view (a :: rest) st).1.intakes =
        (ackLoop pid view rest (processAckRx pid view st a).1).1.intakes := rfl
    rcases processAckRx_shape pid view st a with ⟨-, heq⟩ |
      ⟨s, -, -, heq⟩ | ⟨s, hf, -, hint, -, -⟩
    · refine ⟨app2, ?_, ?_, ?_⟩
      · rw [hcons, h2, heq]
      · intro r hr
        obtain ⟨rx, hrx, hrest⟩ := hmem2 r hr
        exact ⟨rx, List.mem_cons_of_mem a hrx, hrest⟩
      · intro rid
        refine (hcnt2 rid).trans ?_
        rw [List.filter_cons]
        split <;> simp
    · refine ⟨app2, ?_, ?_, ?_⟩
      · rw [hcons, h2, heq]
      · intro r hr
        obtain ⟨rx, hrx, hrest⟩ := hmem2 r hr
        exact ⟨rx, List.mem_cons_of_mem a hrx, hrest⟩
      · intro rid
        refine (hcnt2 rid).trans ?_
        rw [List.filter_cons]
        split <;> simp
    · refine ⟨⟨⟨pid, a.id, (view (resolveTz a.timezone)).1, s.hhmm⟩, s.pills⟩ :: app2,
        ?_, ?_, ?_⟩
      · rw [hcons, h2, hint, List.append_assoc]
        rfl
      · intro r hr
        rcases List.mem_cons.mp hr with rfl | hr'
        · exact ⟨a, List.mem_cons_self a rest, s, hf, rfl⟩
        · obtain ⟨rx, hrx, hrest⟩ := hmem2 r hr'
          exact ⟨rx, List.mem_cons_of_mem a hrx, hrest⟩
      · intro rid
        rw [List.filter_cons, List.filter_cons]
        by_cases hid : a.id = rid
        · rw [if_pos (by simpa using hid), if_pos (by simpa using hid)]
          simpa using hcnt2 rid
        · rw [if_neg (by simpa using hid), if_neg (by simpa using hid)]
          exact hcnt2 rid

/-- In a list of prescriptions with pairwise-distinct ids, at most one
entry carries any given id. -/
theorem filter_id_le_one (l : List Rx) (hd : (l.map Rx.id).Nodup) (rid : String) :
    (l.filter fun rx => rx.id = rid).length ≤ 1 := by
  induction l with
  | nil =>
    simp
  | cons a t ih =>
    have hd' : (∀ x ∈ t, ¬x.id = a.id) ∧ (List.map Rx.id t).Nodup := by
      simpa using hd
    rw [List.filter_cons]
    by_cases hid : a.id = rid
    · rw [if_pos (by simpa using hid)]
      have ht : t.filter (fun rx => rx.id = rid) = [] := by
        rw [List.filter_eq_nil_iff]
        intro x hx
        simp only [decide_eq_true_eq]
        intro hxid
        exact hd'.1 x hx (hxid.trans hid.symm)
      rw [ht]
      simp
    · rw [if_neg (by simpa using hid)]
      exact ih hd'.2

end LineWebhook

/-- C10: per acknowledgment, the recorder creates at most one `DoseIntake`
row per inventory-active prescription (given the per-(patient,
prescription) uniqueness of inventory entries, i.e. distinct prescription
ids): every created row comes from the first active slot, in ascending
time order, whose window contains the current local minute, and carries
exactly that slot's configured pill count. -/
theorem ack_single_intake_per_rx (pid : String) (view : String → String × Nat)
    (st0 : LineWebhook.AckState)
    (hids : (((st0.invs.filter fun e => e.2).map fun e => e.1).map Rx.id).Nodup) :
    ∃ app, (LineWebhook.onTextAck pid view st0).1.intakes = st0.intakes ++ app ∧
      (∀ rid, (app.filter fun r => r.key.prescriptionId = rid).length ≤ 1) ∧
      ∀ r ∈ app, ∃ rx, rx ∈ (st0.invs.filter fun e => e.2).map (fun e => e.1) ∧
        ∃ s, LineWebhook.isFirstCurrentW
            (sortSlots (rx.schedules.filter Slot.isActive))
            (view (resolveTz rx.timezone)).2 s ∧
          r = ⟨⟨pid, rx.id, (view (resolveTz rx.timezone)).1, s.hhmm⟩, s.pills⟩ := by
  obtain ⟨app, happ, hmem, hcnt⟩ := LineWebhook.ackLoop_created pid view
    ((st0.invs.filter fun e => e.2).map fun e => e.1) st0
  refine ⟨app, ?_, ?_, ?_⟩
  · rw [LineWebhook.onTextAck_state, happ]
  · intro rid
    exact (hcnt rid).trans (LineWebhook.filter_id_le_one _ hids rid)
  · intro r hr
    obtain ⟨rx, hrx, s, hf, hreq⟩ := hmem r hr
    exact ⟨rx, hrx, s, (findCurrentSlotW_some_iff _ _ s).mp hf, hreq⟩

/-- Witness for C10: one active prescription, acknowledged at 07:05,
creates exactly the 07:00 row with its configured single pill. -/
theorem ack_single_intake_per_rx_witness :
    ∃ app, (LineWebhook.onTextAck "p1" wView ⟨[], [(wRx, true)]⟩).1.intakes =
        [] ++ app ∧
      (∀ rid, (app.filter fun r => r.key.prescriptionId = rid).length ≤ 1) ∧
      ∀ r ∈ app, ∃ rx,
        rx ∈ (([(wRx, true)].filter fun e => e.2).map fun e => e.1) ∧
        ∃ s, LineWebhook.isFirstCurrentW
            (sortSlots (rx.schedules.filter Slot.isActive))
            (wView (resolveTz rx.timezone)).2 s ∧
          r = ⟨⟨"p1", rx.id, (wView (resolveTz rx.timezone)).1, s.hhmm⟩, s.pills⟩ :=
  ack_single_intake_per_rx "p1" wView ⟨[], [(wRx, true)]⟩ (by decide)
